import Mathlib

/-!
Verification development for the UPI transaction analyzer
(`src/streamlit.py`).  The aggregation engine of that script is embedded
shallowly below:

* a pandas row becomes a `TransactionRecord`; `pd.to_datetime` dates and
  `to_period('M')` month buckets are modelled by their internal integer
  ordinals (`date`, `month : Nat`, ordered chronologically), and
  `pd.to_numeric(..., errors='coerce')` amounts become `Option Int`
  (`none` is NaN: a missing / non-numeric amount);
* `df_filtered` (line 22 and 26) is the date-range-and-category filter;
* `groupby(col)["Amount"].sum()` becomes `groupbySum`: pandas sorts the
  group keys ascending and skips NaN when summing (an all-NaN group sums
  to 0), and `.sort_values(ascending=False)` becomes the deterministic
  stable sort `sortByTotalDesc`;
* `category_summary`, `day_summary`, `hour_summary`, `top_merchants`,
  `monthly_trend`, `small_transactions`, `recurring`, `wasteful_small`,
  `wasteful_status` keep the source's names and structure (lines 28-36
  and 85);
* `aggregate` packages one pass over a record list, date range and
  category selection into a `SummaryBundle`, the pure contract the spec
  describes for the module-level computation.
-/

/-- One ledger row after the load-time coercions of lines 9-14 of the
source: `Date` and `Month` as chronological ordinals, `Amount` coerced
to `none` (NaN) when non-numeric, `DayOfWeek`, `Hour` derived once. -/
structure TransactionRecord where
  date : Nat
  hour : Nat
  dayOfWeek : String
  amount : Option Int
  category : String
  receiver : String
  status : String
  month : Nat
deriving DecidableEq, Repr

/-- Lines 22 and 26: keep records with `start_date <= Date <= end_date`
(both bounds inclusive) whose `Category` is among the selected ones. -/
def df_filtered (records : List TransactionRecord) (start_date end_date : Nat)
    (selected_categories : List String) : List TransactionRecord :=
  (records.filter (fun r => decide (start_date ≤ r.date) && decide (r.date ≤ end_date))).filter
    (fun r => decide (r.category ∈ selected_categories))

/-- Pandas `sum` over a group: NaN amounts are skipped, i.e. contribute
zero, and an all-NaN group sums to 0. -/
def knownAmount (r : TransactionRecord) : Int :=
  r.amount.getD 0

/-- The `Amount` sum of the records of one group. -/
def groupSum {κ : Type} [DecidableEq κ] (keyOf : TransactionRecord → κ) (k : κ)
    (rs : List TransactionRecord) : Int :=
  ((rs.filter (fun r => decide (keyOf r = k))).map knownAmount).sum

/-- `df.groupby(keyOf)["Amount"].sum()`: one `(key, total)` pair per
distinct key, keys sorted ascending (the pandas `groupby` default). -/
def groupbySum {κ : Type} [DecidableEq κ] (le : κ → κ → Prop) [DecidableRel le]
    (keyOf : TransactionRecord → κ) (rs : List TransactionRecord) : List (κ × Int) :=
  (List.insertionSort le ((rs.map keyOf).dedup)).map (fun k => (k, groupSum keyOf k rs))

/-- `.sort_values(ascending=False)`: order pairs by descending total,
deterministically (a stable sort; ties keep their incoming order). -/
def sortByTotalDesc {κ : Type} (l : List (κ × Int)) : List (κ × Int) :=
  List.insertionSort (fun p q => q.2 ≤ p.2) l

/-- Line 28: per-category totals, descending. -/
def category_summary (rs : List TransactionRecord) : List (String × Int) :=
  sortByTotalDesc (groupbySum (fun a b => a ≤ b) TransactionRecord.category rs)

/-- Line 29: per-weekday totals, descending. -/
def day_summary (rs : List TransactionRecord) : List (String × Int) :=
  sortByTotalDesc (groupbySum (fun a b => a ≤ b) TransactionRecord.dayOfWeek rs)

/-- Line 30: per-hour totals, descending. -/
def hour_summary (rs : List TransactionRecord) : List (Nat × Int) :=
  sortByTotalDesc (groupbySum (fun a b => a ≤ b) TransactionRecord.hour rs)

/-- Line 31: per-receiver totals, descending, truncated to the top 5. -/
def top_merchants (rs : List TransactionRecord) : List (String × Int) :=
  (sortByTotalDesc (groupbySum (fun a b => a ≤ b) TransactionRecord.receiver rs)).take 5

/-- Lines 85-86: monthly totals; `groupby` leaves the month keys sorted
ascending, i.e. chronologically. -/
def monthly_trend (rs : List TransactionRecord) : List (Nat × Int) :=
  groupbySum (fun a b => a ≤ b) TransactionRecord.month rs

/-- Line 33: `df_filtered['Amount'] < 500`.  A NaN amount compares false
in pandas, so records with unknown amount are excluded. -/
def small_transactions (rs : List TransactionRecord) : List TransactionRecord :=
  rs.filter (fun r => match r.amount with
    | some a => decide (a < 500)
    | none => false)

/-- The `(Receiver, Month)` grouping key of line 34. -/
def receiverMonth (r : TransactionRecord) : String × Nat :=
  (r.receiver, r.month)

/-- Lexicographic order on `(Receiver, Month)` keys, the order pandas
sorts a two-level group index in. -/
def pairLe (p q : String × Nat) : Prop :=
  p.1 < q.1 ∨ (p.1 = q.1 ∧ p.2 ≤ q.2)

instance : DecidableRel pairLe := fun p q =>
  inferInstanceAs (Decidable (p.1 < q.1 ∨ (p.1 = q.1 ∧ p.2 ≤ q.2)))

/-- `df.groupby(keyOf).size()`: one `(key, count)` pair per distinct
key, keys sorted ascending. -/
def groupbyCount {κ : Type} [DecidableEq κ] (le : κ → κ → Prop) [DecidableRel le]
    (keyOf : TransactionRecord → κ) (rs : List TransactionRecord) : List (κ × Nat) :=
  (List.insertionSort le ((rs.map keyOf).dedup)).map
    (fun k => (k, (rs.filter (fun r => decide (keyOf r = k))).length))

/-- Line 34: occurrence counts of small transactions per
`(Receiver, Month)` pair. -/
def recurring (rs : List TransactionRecord) : List ((String × Nat) × Nat) :=
  groupbyCount pairLe receiverMonth (small_transactions rs)

/-- Line 35: keep the `(Receiver, Month)` groups that occur strictly
more than 3 times. -/
def wasteful_small (rs : List TransactionRecord) : List ((String × Nat) × Nat) :=
  (recurring rs).filter (fun p => decide (3 < p.2))

/-- Line 36: records whose `Status` is PENDING or FAILED, taken from the
full filtered frame in their original order. -/
def wasteful_status (rs : List TransactionRecord) : List TransactionRecord :=
  rs.filter (fun r => decide (r.status = "PENDING") || decide (r.status = "FAILED"))

/-- Line 102: the `[['Date','Receiver','Amount','Status']]` projection
of the pending/failed records shown to the user. -/
def wasteful_status_view (rs : List TransactionRecord) :
    List (Nat × String × Option Int × String) :=
  (wasteful_status rs).map (fun r => (r.date, r.receiver, r.amount, r.status))

/-- The bundle of summaries one aggregation pass produces (§3 of the
spec: `SummaryBundle`). -/
structure SummaryBundle where
  categoryTotals : List (String × Int)
  dayOfWeekTotals : List (String × Int)
  hourTotals : List (Nat × Int)
  topMerchants : List (String × Int)
  monthlyTrend : List (Nat × Int)
  wastefulRecurring : List ((String × Nat) × Nat)
  wastefulStatus : List TransactionRecord
deriving DecidableEq, Repr

/-- The spec's `aggregate` contract (§4.1): filter, then compute every
summary of lines 28-36 and 85 on the filtered records. -/
def aggregate (records : List TransactionRecord) (start_date end_date : Nat)
    (selected_categories : List String) : SummaryBundle :=
  { categoryTotals := category_summary (df_filtered records start_date end_date selected_categories)
    dayOfWeekTotals := day_summary (df_filtered records start_date end_date selected_categories)
    hourTotals := hour_summary (df_filtered records start_date end_date selected_categories)
    topMerchants := top_merchants (df_filtered records start_date end_date selected_categories)
    monthlyTrend := monthly_trend (df_filtered records start_date end_date selected_categories)
    wastefulRecurring := wasteful_small (df_filtered records start_date end_date selected_categories)
    wastefulStatus := wasteful_status (df_filtered records start_date end_date selected_categories) }

/-- The bundle every field of which is empty. -/
def emptyBundle : SummaryBundle :=
  { categoryTotals := []
    dayOfWeekTotals := []
    hourTotals := []
    topMerchants := []
    monthlyTrend := []
    wastefulRecurring := []
    wastefulStatus := [] }

/-- The spec's predicate for a small transaction: the amount is known
and strictly below the 500 threshold. -/
def IsSmall (r : TransactionRecord) : Prop :=
  ∃ a, r.amount = some a ∧ a < 500

instance (r : TransactionRecord) : Decidable (IsSmall r) :=
  match h : r.amount with
  | none => isFalse (by simp [IsSmall, h])
  | some a => decidable_of_iff (a < 500) (by simp [IsSmall, h])

/-!
Helper lemmas: summing group sums over the distinct keys recovers the
total sum, and the sorting steps are permutations, so they preserve
sums, lengths and membership.
-/

/-- Over a duplicate-free key list, the indicator sum collapses to the
single hit. -/
lemma sum_map_ite_eq {κ : Type} [DecidableEq κ] (ks : List κ) (a : κ) (c : Int)
    (hnd : ks.Nodup) (ha : a ∈ ks) :
    (ks.map (fun k => if a = k then c else 0)).sum = c := by
  induction ks with
  | nil => cases ha
  | cons k ks ih =>
      rcases List.mem_cons.mp ha with h | h
      · subst h
        have hnotmem : a ∉ ks := (List.nodup_cons.mp hnd).1
        have hrest : (ks.map (fun k => if a = k then c else 0)).sum = 0 := by
          apply List.sum_eq_zero
          intro x hx
          rcases List.mem_map.mp hx with ⟨k', hk', rfl⟩
          have hne : a ≠ k' := fun h => hnotmem (h ▸ hk')
          simp [hne]
        simp [hrest]
      · have hne : a ≠ k := by
          rintro rfl
          exact (List.nodup_cons.mp hnd).1 h
        simp only [List.map_cons, List.sum_cons, if_neg hne]
        rw [ih (List.nodup_cons.mp hnd).2 h]
        ring

/-- Summing a pointwise sum of two functions over a list splits. -/
lemma sum_map_add_distrib {κ : Type} (ks : List κ) (g h : κ → Int) :
    (ks.map (fun k => g k + h k)).sum = (ks.map g).sum + (ks.map h).sum := by
  induction ks with
  | nil => simp
  | cons k ks ih =>
      simp only [List.map_cons, List.sum_cons, ih]
      ring

/-- Partition identity: when `ks` lists every key of `rs` exactly once,
the per-key filtered sums add up to the whole sum. -/
lemma sum_map_filter_key {κ : Type} [DecidableEq κ] (keyOf : TransactionRecord → κ)
    (f : TransactionRecord → Int) (ks : List κ) (hnd : ks.Nodup) :
    ∀ rs : List TransactionRecord, (∀ r ∈ rs, keyOf r ∈ ks) →
      (ks.map (fun k => ((rs.filter (fun r => decide (keyOf r = k))).map f).sum)).sum
        = (rs.map f).sum := by
  intro rs
  induction rs with
  | nil =>
      intro _
      simp only [List.filter_nil, List.map_nil, List.sum_nil]
      exact List.sum_eq_zero (by
        intro x hx
        rcases List.mem_map.mp hx with ⟨k, _, rfl⟩
        rfl)
  | cons r rest ih =>
      intro hcov
      have hkr : keyOf r ∈ ks := hcov r (List.mem_cons_self r rest)
      have step : ∀ k ∈ ks,
          (((r :: rest).filter (fun x => decide (keyOf x = k))).map f).sum
            = (if keyOf r = k then f r else 0)
              + ((rest.filter (fun x => decide (keyOf x = k))).map f).sum := by
        intro k _
        by_cases h : keyOf r = k
        · simp [List.filter_cons, h]
        · simp [List.filter_cons, h]
      rw [List.map_congr_left step, sum_map_add_distrib,
        sum_map_ite_eq ks (keyOf r) (f r) hnd hkr,
        ih (fun x hx => hcov x (List.mem_cons_of_mem r hx))]
      simp

/-- `groupbySum` totals add up to the sum of all known amounts. -/
lemma sum_groupbySum {κ : Type} [DecidableEq κ] (le : κ → κ → Prop) [DecidableRel le]
    (keyOf : TransactionRecord → κ) (rs : List TransactionRecord) :
    ((groupbySum le keyOf rs).map Prod.snd).sum = (rs.map knownAmount).sum := by
  unfold groupbySum
  rw [List.map_map]
  have hcomp : (Prod.snd ∘ fun k => (k, groupSum keyOf k rs))
      = fun k => groupSum keyOf k rs := rfl
  rw [hcomp]
  have hperm := (List.perm_insertionSort le ((rs.map keyOf).dedup)).map
    (fun k => groupSum keyOf k rs)
  rw [hperm.sum_eq]
  exact sum_map_filter_key keyOf knownAmount ((rs.map keyOf).dedup)
    ((rs.map keyOf).nodup_dedup) rs
    (fun r hr => List.mem_dedup.mpr (List.mem_map_of_mem keyOf hr))

/-- Sorting by descending total does not change the total of totals. -/
lemma sum_sortByTotalDesc {κ : Type} (l : List (κ × Int)) :
    ((sortByTotalDesc l).map Prod.snd).sum = (l.map Prod.snd).sum := by
  unfold sortByTotalDesc
  exact ((List.perm_insertionSort (fun p q => q.2 ≤ p.2) l).map Prod.snd).sum_eq

/-- The sum of the known amounts equals the NaN-skipping sum. -/
lemma sum_filterMap_amount (rs : List TransactionRecord) :
    (rs.filterMap TransactionRecord.amount).sum = (rs.map knownAmount).sum := by
  induction rs with
  | nil => simp
  | cons r rest ih =>
      cases h : r.amount with
      | none => simp [List.filterMap_cons, h, knownAmount, ih]
      | some a => simp [List.filterMap_cons, h, knownAmount, ih]

/-- C1: for every record set, date range and category filter, the sum of
all values in `categoryTotals` equals the sum of `amount` over the
filtered records whose amount is known; records coerced to missing/NaN
contribute nothing. -/
theorem categoryTotals_sum_eq_filtered_known_sum (records : List TransactionRecord)
    (start_date end_date : Nat) (selected_categories : List String) :
    ((category_summary (df_filtered records start_date end_date selected_categories)).map
        Prod.snd).sum
      = ((df_filtered records start_date end_date selected_categories).filterMap
          TransactionRecord.amount).sum := by
  rw [category_summary, sum_sortByTotalDesc, sum_groupbySum, sum_filterMap_amount]

/-- A concrete pending record with a missing (NaN-coerced) amount, used
to instantiate the theorems with hypotheses at a concrete input. -/
def pendingNaN : TransactionRecord :=
  { date := 10, hour := 9, dayOfWeek := "Monday", amount := none,
    category := "Food", receiver := "CafeOne", status := "PENDING", month := 1 }

/-- C8: the date filter is inclusive on both bounds: a record is
retained exactly when `startDate <= date <= endDate` and its category is
selected; with `startDate = endDate = d` exactly the records dated `d`
(and in a selected category) remain. -/
theorem mem_df_filtered_iff (records : List TransactionRecord)
    (start_date end_date d : Nat) (selected_categories : List String)
    (r : TransactionRecord) :
    (r ∈ df_filtered records start_date end_date selected_categories ↔
        r ∈ records ∧ start_date ≤ r.date ∧ r.date ≤ end_date ∧
          r.category ∈ selected_categories)
      ∧ (r ∈ df_filtered records d d selected_categories ↔
          r ∈ records ∧ r.date = d ∧ r.category ∈ selected_categories) := by
  constructor
  · unfold df_filtered
    simp only [List.mem_filter, Bool.and_eq_true, decide_eq_true_eq]
    tauto
  · unfold df_filtered
    simp only [List.mem_filter, Bool.and_eq_true, decide_eq_true_eq]
    constructor
    · intro h
      obtain ⟨⟨hm, h1, h2⟩, hc⟩ := h
      exact ⟨hm, le_antisymm h2 h1, hc⟩
    · intro h
      obtain ⟨hm, hd, hc⟩ := h
      exact ⟨⟨hm, hd.ge, hd.le⟩, hc⟩

/-- C5: a filtered record is in `wasteful_status` iff its status is
PENDING or FAILED (so a COMPLETED record never is), the selection is a
sublist of the full filtered set (original relative order preserved),
and it is not restricted to small amounts. -/
theorem wasteful_status_mem_iff_and_sublist (records : List TransactionRecord)
    (start_date end_date : Nat) (selected_categories : List String) :
    (∀ r, r ∈ wasteful_status (df_filtered records start_date end_date selected_categories) ↔
        r ∈ df_filtered records start_date end_date selected_categories ∧
          (r.status = "PENDING" ∨ r.status = "FAILED"))
      ∧ List.Sublist
          (wasteful_status (df_filtered records start_date end_date selected_categories))
          (df_filtered records start_date end_date selected_categories) := by
  constructor
  · intro r
    unfold wasteful_status
    simp [List.mem_filter]
  · exact List.filter_sublist _

/-- C10: a filtered PENDING or FAILED record with a missing amount still
appears in `wasteful_status`, and the displayed projection reports it
with an unknown amount rather than dropping it. -/
theorem wasteful_status_keeps_missing_amount (records : List TransactionRecord)
    (start_date end_date : Nat) (selected_categories : List String)
    (r : TransactionRecord)
    (hmem : r ∈ df_filtered records start_date end_date selected_categories)
    (hst : r.status = "PENDING" ∨ r.status = "FAILED")
    (hamt : r.amount = none) :
    r ∈ wasteful_status (df_filtered records start_date end_date selected_categories) ∧
      (r.date, r.receiver, (none : Option Int), r.status) ∈
        wasteful_status_view (df_filtered records start_date end_date selected_categories) := by
  have h1 : r ∈ wasteful_status (df_filtered records start_date end_date selected_categories) := by
    unfold wasteful_status
    rcases hst with h | h <;> simp [List.mem_filter, hmem, h]
  refine ⟨h1, ?_⟩
  unfold wasteful_status_view
  rw [← hamt]
  exact List.mem_map_of_mem _ h1

/-- C10 witness: a concrete PENDING record with amount `none` shows up
in the status report. -/
theorem wasteful_status_keeps_missing_amount_witness :
    pendingNaN ∈ wasteful_status (df_filtered [pendingNaN] 0 20 ["Food"]) ∧
      (10, "CafeOne", (none : Option Int), "PENDING") ∈
        wasteful_status_view (df_filtered [pendingNaN] 0 20 ["Food"]) :=
  wasteful_status_keeps_missing_amount [pendingNaN] 0 20 ["Food"] pendingNaN
    (by decide) (Or.inl rfl) rfl

/-- C9: `aggregate` is deterministic: identical inputs yield identical
bundles (purity and non-mutation hold by construction in this
functional embedding). -/
theorem aggregate_deterministic (records₁ records₂ : List TransactionRecord)
    (s₁ s₂ e₁ e₂ : Nat) (cf₁ cf₂ : List String)
    (h : records₁ = records₂ ∧ s₁ = s₂ ∧ e₁ = e₂ ∧ cf₁ = cf₂) :
    aggregate records₁ s₁ e₁ cf₁ = aggregate records₂ s₂ e₂ cf₂ := by
  obtain ⟨h1, h2, h3, h4⟩ := h
  subst h1
  subst h2
  subst h3
  subst h4
  rfl

/-- C9 witness: two runs on the same concrete input coincide. -/
theorem aggregate_deterministic_witness :
    aggregate [pendingNaN] 0 20 ["Food"] = aggregate [pendingNaN] 0 20 ["Food"] :=
  aggregate_deterministic [pendingNaN] [pendingNaN] 0 0 20 20 ["Food"] ["Food"]
    ⟨rfl, rfl, rfl, rfl⟩

/-- C6: an inverted date range or an empty category selection yields the
empty bundle, with no error. -/
theorem aggregate_empty_bundle (records : List TransactionRecord)
    (start_date end_date : Nat) (selected_categories : List String)
    (h : end_date < start_date ∨ selected_categories = []) :
    aggregate records start_date end_date selected_categories = emptyBundle := by
  have hnil : df_filtered records start_date end_date selected_categories = [] := by
    rcases h with h | h
    · unfold df_filtered
      have hin : records.filter
          (fun r => decide (start_date ≤ r.date) && decide (r.date ≤ end_date)) = [] := by
        rw [List.filter_eq_nil_iff]
        intro a _
        simp only [Bool.and_eq_true, decide_eq_true_eq, not_and]
        intro h1 h2
        omega
      rw [hin, List.filter_nil]
    · subst h
      unfold df_filtered
      rw [List.filter_eq_nil_iff]
      intro a _
      simp
  unfold aggregate
  rw [hnil]
  rfl

/-- C6 witness: a concrete inverted range produces the empty bundle. -/
theorem aggregate_empty_bundle_witness :
    aggregate [pendingNaN] 20 0 ["Food"] = emptyBundle :=
  aggregate_empty_bundle [pendingNaN] 20 0 ["Food"] (Or.inl (by decide))

instance descByTotalTotal {κ : Type} :
    IsTotal (κ × Int) (fun p q => q.2 ≤ p.2) :=
  ⟨fun p q => le_total q.2 p.2⟩

instance descByTotalTrans {κ : Type} :
    IsTrans (κ × Int) (fun p q => q.2 ≤ p.2) :=
  ⟨fun _ _ _ h1 h2 => le_trans h2 h1⟩

/-- C4: monthlyTrend is sorted ascending by the calendar order of its
month keys, independently of the magnitude of the totals. -/
theorem monthly_trend_chronological (records : List TransactionRecord)
    (start_date end_date : Nat) (selected_categories : List String) :
    List.Sorted (fun a b => a ≤ b)
      ((monthly_trend (df_filtered records start_date end_date selected_categories)).map
        Prod.fst) := by
  unfold monthly_trend groupbySum List.Sorted
  rw [List.pairwise_map, List.pairwise_map]
  exact (List.sorted_insertionSort (fun a b => a ≤ b) _).imp (fun h => h)

/-- C3: topMerchants has length `min 5 (distinct receivers in the
filtered set)` and its totals are sorted descending (ties are resolved
deterministically: the sorts used are stable). -/
theorem top_merchants_length_and_sorted (records : List TransactionRecord)
    (start_date end_date : Nat) (selected_categories : List String) :
    (top_merchants (df_filtered records start_date end_date selected_categories)).length
        = min 5 (((df_filtered records start_date end_date selected_categories).map
            TransactionRecord.receiver).dedup.length)
      ∧ List.Sorted (fun a b : Int => b ≤ a)
          ((top_merchants (df_filtered records start_date end_date selected_categories)).map
            Prod.snd) := by
  constructor
  · unfold top_merchants sortByTotalDesc groupbySum
    rw [List.length_take, List.length_insertionSort, List.length_map,
      List.length_insertionSort]
  · unfold top_merchants sortByTotalDesc List.Sorted
    rw [List.pairwise_map]
    exact List.Pairwise.sublist (List.take_sublist 5 _) (List.sorted_insertionSort _ _)

/-- A pair's membership is unchanged by the descending sort. -/
lemma mem_sortByTotalDesc {κ : Type} (l : List (κ × Int)) (p : κ × Int) :
    p ∈ sortByTotalDesc l ↔ p ∈ l := by
  unfold sortByTotalDesc
  exact (List.perm_insertionSort _ l).mem_iff

/-- A key's membership is unchanged by the descending sort. -/
lemma mem_map_fst_sortByTotalDesc {κ : Type} (l : List (κ × Int)) (k : κ) :
    k ∈ (sortByTotalDesc l).map Prod.fst ↔ k ∈ l.map Prod.fst := by
  unfold sortByTotalDesc
  exact ((List.perm_insertionSort _ l).map Prod.fst).mem_iff

/-- The keys of `groupbySum` are exactly the keys occurring in the
records. -/
lemma mem_map_fst_groupbySum {κ : Type} [DecidableEq κ] (le : κ → κ → Prop)
    [DecidableRel le] (keyOf : TransactionRecord → κ) (rs : List TransactionRecord)
    (k : κ) :
    k ∈ (groupbySum le keyOf rs).map Prod.fst ↔ ∃ r ∈ rs, keyOf r = k := by
  unfold groupbySum
  rw [List.map_map]
  constructor
  · intro h
    rcases List.mem_map.mp h with ⟨k', hk', hkk⟩
    have hk : k' = k := hkk
    subst hk
    have hd : k' ∈ (rs.map keyOf).dedup :=
      (List.perm_insertionSort le _).mem_iff.mp hk'
    rcases List.mem_map.mp (List.mem_dedup.mp hd) with ⟨r, hr, hr2⟩
    exact ⟨r, hr, hr2⟩
  · intro h
    rcases h with ⟨r, hr, hk⟩
    subst hk
    apply List.mem_map.mpr
    exact ⟨keyOf r,
      (List.perm_insertionSort le _).mem_iff.mpr
        (List.mem_dedup.mpr (List.mem_map_of_mem keyOf hr)), rfl⟩

/-- A total listed by `groupbySum` is the sum of the known amounts of
its group. -/
lemma total_of_mem_groupbySum {κ : Type} [DecidableEq κ] (le : κ → κ → Prop)
    [DecidableRel le] (keyOf : TransactionRecord → κ) (rs : List TransactionRecord)
    (k : κ) (t : Int) (h : (k, t) ∈ groupbySum le keyOf rs) :
    t = ((rs.filter (fun r => decide (keyOf r = k))).filterMap
      TransactionRecord.amount).sum := by
  unfold groupbySum at h
  rcases List.mem_map.mp h with ⟨k', _, heq⟩
  injection heq with h1 h2
  subst h1
  rw [← h2]
  unfold groupSum
  exact (sum_filterMap_amount _).symm

/-- The two pieces of the per-group contract of a descending-sorted
grouped summary: every occurring key appears, and each listed total is
the sum of the group's known amounts. -/
lemma summary_groups_spec {κ : Type} [DecidableEq κ] (le : κ → κ → Prop)
    [DecidableRel le] (keyOf : TransactionRecord → κ) (rs : List TransactionRecord)
    (k : κ) :
    (k ∈ (sortByTotalDesc (groupbySum le keyOf rs)).map Prod.fst ↔
        ∃ r ∈ rs, keyOf r = k)
      ∧ ∀ t, (k, t) ∈ sortByTotalDesc (groupbySum le keyOf rs) →
          t = ((rs.filter (fun r => decide (keyOf r = k))).filterMap
            TransactionRecord.amount).sum := by
  constructor
  · rw [mem_map_fst_sortByTotalDesc]
    exact mem_map_fst_groupbySum le keyOf rs k
  · intro t ht
    exact total_of_mem_groupbySum le keyOf rs k t ((mem_sortByTotalDesc _ _).mp ht)

/-- C7: in the category, day and hour summaries a key occurring among
the filtered records always appears, even when all its amounts are
missing (the group then shows total 0) or its total is zero or negative
(sums are not clamped), and every listed total is the sum of the known
amounts of its group, missing amounts contributing zero. -/
theorem summaries_keep_all_groups (records : List TransactionRecord)
    (start_date end_date : Nat) (selected_categories : List String) :
    (∀ c : String,
        (c ∈ (category_summary (df_filtered records start_date end_date
              selected_categories)).map Prod.fst ↔
            ∃ r ∈ df_filtered records start_date end_date selected_categories,
              r.category = c)
          ∧ ∀ t, (c, t) ∈ category_summary (df_filtered records start_date end_date
                selected_categories) →
              t = (((df_filtered records start_date end_date selected_categories).filter
                  (fun r => decide (r.category = c))).filterMap
                TransactionRecord.amount).sum)
      ∧ (∀ w : String,
          (w ∈ (day_summary (df_filtered records start_date end_date
                selected_categories)).map Prod.fst ↔
              ∃ r ∈ df_filtered records start_date end_date selected_categories,
                r.dayOfWeek = w)
            ∧ ∀ t, (w, t) ∈ day_summary (df_filtered records start_date end_date
                  selected_categories) →
                t = (((df_filtered records start_date end_date selected_categories).filter
                    (fun r => decide (r.dayOfWeek = w))).filterMap
                  TransactionRecord.amount).sum)
      ∧ (∀ hr : Nat,
          (hr ∈ (hour_summary (df_filtered records start_date end_date
                selected_categories)).map Prod.fst ↔
              ∃ r ∈ df_filtered records start_date end_date selected_categories,
                r.hour = hr)
            ∧ ∀ t, (hr, t) ∈ hour_summary (df_filtered records start_date end_date
                  selected_categories) →
                t = (((df_filtered records start_date end_date selected_categories).filter
                    (fun r => decide (r.hour = hr))).filterMap
                  TransactionRecord.amount).sum) :=
  ⟨fun c => summary_groups_spec (fun a b => a ≤ b) TransactionRecord.category _ c,
    fun w => summary_groups_spec (fun a b => a ≤ b) TransactionRecord.dayOfWeek _ w,
    fun hr => summary_groups_spec (fun a b => a ≤ b) TransactionRecord.hour _ hr⟩

/-- The small-transaction filter restricted to one `(Receiver, Month)`
key equals one filter by the spec's small-and-at-key predicate. -/
lemma small_filter_eq (rs : List TransactionRecord) (k : String × Nat) :
    (small_transactions rs).filter (fun r => decide (receiverMonth r = k))
      = rs.filter (fun r => decide (IsSmall r ∧ (r.receiver, r.month) = k)) := by
  unfold small_transactions
  rw [List.filter_filter]
  apply List.filter_congr
  intro r _
  rw [Bool.eq_iff_iff]
  simp only [Bool.and_eq_true, decide_eq_true_eq]
  cases h : r.amount with
  | none => simp [IsSmall, h, receiverMonth]
  | some a =>
      simp only [IsSmall, h, receiverMonth, decide_eq_true_eq, Option.some.injEq]
      constructor
      · intro hx
        exact ⟨⟨a, rfl, hx.2⟩, hx.1⟩
      · intro hx
        rcases hx with ⟨⟨b, hb, hb2⟩, hk⟩
        cases hb
        exact ⟨hk, hb2⟩

/-- Membership in a `groupbyCount` result names an occurring key and
carries the occurrence count of its group. -/
lemma mem_groupbyCount {κ : Type} [DecidableEq κ] (le : κ → κ → Prop)
    [DecidableRel le] (keyOf : TransactionRecord → κ) (rs : List TransactionRecord)
    (k : κ) (n : Nat) :
    (k, n) ∈ groupbyCount le keyOf rs ↔
      (∃ r ∈ rs, keyOf r = k) ∧
        n = (rs.filter (fun r => decide (keyOf r = k))).length := by
  unfold groupbyCount
  constructor
  · intro h
    rcases List.mem_map.mp h with ⟨k', hk', heq⟩
    injection heq with h1 h2
    subst h1
    refine ⟨?_, h2.symm⟩
    have hd : k' ∈ (rs.map keyOf).dedup :=
      (List.perm_insertionSort le _).mem_iff.mp hk'
    rcases List.mem_map.mp (List.mem_dedup.mp hd) with ⟨r, hr, hr2⟩
    exact ⟨r, hr, hr2⟩
  · intro h
    rcases h with ⟨⟨r, hr, hk⟩, hn⟩
    subst hk
    subst hn
    apply List.mem_map.mpr
    exact ⟨keyOf r,
      (List.perm_insertionSort le _).mem_iff.mpr
        (List.mem_dedup.mpr (List.mem_map_of_mem keyOf hr)), rfl⟩

/-- C2: a `(receiver, month)` group is listed in wastefulRecurring with
count `n` exactly when `n` is the number of filtered records of that
group whose amount is known and strictly below 500, and `n` is strictly
greater than 3; so three small payments to one merchant in one month are
excluded and a fourth includes the merchant with count 4. -/
theorem wasteful_small_mem_iff (records : List TransactionRecord)
    (start_date end_date : Nat) (selected_categories : List String)
    (k : String × Nat) (n : Nat) :
    (k, n) ∈ wasteful_small (df_filtered records start_date end_date selected_categories) ↔
      3 < n ∧ n = ((df_filtered records start_date end_date selected_categories).filter
          (fun r => decide (IsSmall r ∧ (r.receiver, r.month) = k))).length := by
  unfold wasteful_small recurring
  rw [List.mem_filter]
  constructor
  · intro h
    obtain ⟨hmem, hgt⟩ := h
    have hgt3 : 3 < n := by simpa using hgt
    rcases (mem_groupbyCount pairLe receiverMonth _ k n).mp hmem with ⟨_, hn⟩
    refine ⟨hgt3, ?_⟩
    rw [hn, small_filter_eq]
  · intro h
    obtain ⟨hgt3, hn⟩ := h
    have hn' : n = ((small_transactions
        (df_filtered records start_date end_date selected_categories)).filter
          (fun r => decide (receiverMonth r = k))).length := by
      rw [small_filter_eq]
      exact hn
    have hpos : 0 < ((small_transactions
        (df_filtered records start_date end_date selected_categories)).filter
          (fun r => decide (receiverMonth r = k))).length := by
      omega
    obtain ⟨r, hr⟩ := List.exists_mem_of_length_pos hpos
    have hr1 := (List.mem_filter.mp hr).1
    have hr2 : receiverMonth r = k := by
      have := (List.mem_filter.mp hr).2
      simpa using this
    refine ⟨(mem_groupbyCount pairLe receiverMonth _ k n).mpr ⟨⟨r, hr1, hr2⟩, hn'⟩, ?_⟩
    simpa using hgt3
